import Mathlib

/-!
Verification development for the padth_finder type-graph builder, resolver and
padding analyzer (`padth_finder.py`).  The Python classes `Type`, `Primitive`,
`Struct`, `Array` and `Typedef` are embedded as an inductive `Node`; the
offset-keyed `types` dictionary of `main` becomes an insertion-ordered
association list; the recursive, memoized `finalize` traversal becomes a
fuel-indexed state-passing function (fuel models Python's finite recursion
stack; every reachable behaviour of the source is obtained at a large enough
fuel).  Python exceptions (RuntimeError on cycles, KeyError, AssertionError,
TypeError) are modelled by an explicit error value paired with the registry
state at the moment the exception escapes, since Python's in-place mutations
survive the exception.
-/

set_option autoImplicit false
set_option maxHeartbeats 1000000

namespace PadthFinder

/-- Resolution states of a type node: `STATE_INITIAL = 0`,
`STATE_IN_PROCESS = 1`, `STATE_FINALIZED = 2` in the source. -/
inductive TState where
  | initial
  | inProcess
  | finalized
deriving DecidableEq

/-- A cross reference held by a node.  Before resolution it is the raw DWARF
offset (`DW_AT_type` value) of the referenced record; `do_finalize` replaces
it with the resolved node object (`types[type_num]`). -/
inductive Ref (α : Type) where
  | raw (off : Int)
  | res (n : α)
deriving DecidableEq

/-- A type node: the four concrete variants of the source.  `Primitive` and
`Struct` read `DW_AT_byte_size` in `__init__`, so they carry a byte size from
construction; `Array` and `Typedef` leave `self.byte_size = None` (set by the
`Type` base constructor) until `do_finalize` computes it.  Struct members are
the tuples `(member_offset, type, member_name)` of the source. -/
inductive Node where
  | primitive (name : String) (byteSize : Int) (state : TState)
  | struct (name : Option String) (byteSize : Int)
      (members : List (Int × Ref Node × String)) (state : TState)
  | array (item : Ref Node) (dims : List Int) (byteSize : Option Int) (state : TState)
  | typedef (name : String) (aliasRef : Ref Node) (byteSize : Option Int) (state : TState)

/-- A struct member tuple `(member_offset, type, member_name)`. -/
abbrev Member := Int × Ref Node × String

/-- The `self.state` attribute. -/
def Node.state : Node → TState
  | .primitive _ _ st => st
  | .struct _ _ _ st => st
  | .array _ _ _ st => st
  | .typedef _ _ _ st => st

/-- Assignment to `self.state`. -/
def setState : Node → TState → Node
  | .primitive n b _, st => .primitive n b st
  | .struct n b ms _, st => .struct n b ms st
  | .array it d b _, st => .array it d b st
  | .typedef n a b _, st => .typedef n a b st

/-- Reading `self.byte_size`: a concrete integer for `Primitive`/`Struct`
(set in `__init__`), the possibly-unset optional value for `Array`/`Typedef`. -/
def nodeByteSize : Node → Option Int
  | .primitive _ b _ => some b
  | .struct _ b _ _ => some b
  | .array _ _ b _ => b
  | .typedef _ _ b _ => b

/-- Reading `.byte_size` through a member binding.  A raw (unresolved)
reference is a plain integer in the source, so the attribute read would raise
`AttributeError`; an unset size is `None` and poisons any arithmetic with a
`TypeError`.  Both failure modes are modelled as `none`. -/
def refByteSize : Ref Node → Option Int
  | .raw _ => none
  | .res n => nodeByteSize n

/-- `Primitive.__init__`: name and `DW_AT_byte_size` from the record, state
`STATE_INITIAL` from the `Type` base constructor. -/
def mkPrimitive (name : String) (byteSize : Int) : Node :=
  .primitive name byteSize .initial

/-- `Struct.__init__`: optional name, `DW_AT_byte_size`, and one raw member
tuple `(DW_AT_data_member_location, DW_AT_type, name)` per member/inheritance
child record. -/
def mkStruct (name : Option String) (byteSize : Int)
    (rawMembers : List (Int × Int × String)) : Node :=
  .struct name byteSize (rawMembers.map fun m => (m.1, Ref.raw m.2.1, m.2.2)) .initial

/-- `Array.__init__`: raw item type reference and one dimension
`DW_AT_upper_bound + 1` per child record; `byte_size` is still unset. -/
def mkArray (itemOff : Int) (upperBounds : List Int) : Node :=
  .array (.raw itemOff) (upperBounds.map (· + 1)) none .initial

/-- `Typedef.__init__`: name and raw alias reference; `byte_size` unset. -/
def mkTypedef (name : String) (aliasOff : Int) : Node :=
  .typedef name (.raw aliasOff) none .initial

/-- The `types` dictionary of `main`: offset-keyed, insertion-ordered. -/
abbrev Registry := List (Int × Node)

/-- Dictionary lookup `types[off]`. -/
def lookupReg : Registry → Int → Option Node
  | [], _ => none
  | (o, n) :: rest, off => if off = o then some n else lookupReg rest off

/-- Dictionary assignment `types[off] = x`: replaces the value at an existing
key in place (order preserved), appends otherwise. -/
def setAt : Registry → Int → Node → Registry
  | [], off, x => [(off, x)]
  | (o, n) :: rest, off, x =>
    if o = off then (o, x) :: rest else (o, n) :: setAt rest off x

/-- The Python exceptions the core can raise, plus `fuel` for exhaustion of
the modelled recursion stack (Python's `RecursionError`). -/
inductive Err where
  | cycle          -- RuntimeError("Type cycle detected")
  | keyError       -- types[off] with an absent key
  | assertionError -- a failed assert
  | typeError      -- arithmetic or attribute access on None / a raw int
  | fuel           -- recursion budget exhausted (embedding artifact)
deriving DecidableEq

mutual

/-- `Type.finalize(types)` invoked on the node registered at `off`: return at
once when `Finalized`, raise the cycle error when `InProcess`, otherwise mark
`InProcess`, run the variant's `do_finalize`, and mark `Finalized`.  The
returned registry reflects all in-place mutations performed up to normal
return or up to the escaping exception. -/
def finalizeAt : Nat → Registry → Int → Registry × Option Err
  | 0, reg, _ => (reg, some .fuel)
  | fuel+1, reg, off =>
    match lookupReg reg off with
    | none => (reg, some .keyError)
    | some node =>
      if node.state = .finalized then (reg, none)
      else if node.state = .inProcess then (reg, some .cycle)
      else
        let node1 := setState node .inProcess
        let reg1 := setAt reg off node1
        match doFinalize fuel reg1 node1 with
        | (reg2, node2, none) => (setAt reg2 off (setState node2 .finalized), none)
        | (reg2, node2, some e) => (setAt reg2 off node2, some e)
termination_by structural fuel reg off => fuel

/-- The variant-specific `do_finalize(types)` bodies.  `Primitive` does
nothing.  `Struct` recursively finalizes and binds every member.  `Array`
asserts it has dimensions, binds its item type WITHOUT finalizing it (as the
source does), and multiplies the item's byte size by every dimension — a
`TypeError` when that size is still `None`.  `Typedef` binds its alias
WITHOUT finalizing it and copies its (possibly still `None`) byte size. -/
def doFinalize : Nat → Registry → Node → Registry × Node × Option Err
  | _, reg, .primitive nm b st => (reg, .primitive nm b st, none)
  | 0, reg, .struct nm bs members st => (reg, .struct nm bs members st, some .fuel)
  | fuel+1, reg, .struct nm bs members st =>
    match structMembers fuel reg members with
    | (reg2, _, some e) => (reg2, .struct nm bs members st, some e)
    | (reg2, newMembers, none) => (reg2, .struct nm bs newMembers st, none)
  | _, reg, .array item dims bs st =>
    if dims = [] then (reg, .array item dims bs st, some .assertionError)
    else
      match item with
      | .res x => (reg, .array (.res x) dims bs st, some .keyError)
      | .raw t =>
        match lookupReg reg t with
        | none => (reg, .array (.raw t) dims bs st, some .keyError)
        | some itemNode =>
          match nodeByteSize itemNode with
          | none => (reg, .array (.res itemNode) dims bs st, some .typeError)
          | some s =>
            (reg, .array (.res itemNode) dims (some (dims.foldl (· * ·) s)) st, none)
  | _, reg, .typedef nm aliasRef bs st =>
    match aliasRef with
    | .res x => (reg, .typedef nm (.res x) bs st, some .keyError)
    | .raw t =>
      match lookupReg reg t with
      | none => (reg, .typedef nm (.raw t) bs st, some .keyError)
      | some a => (reg, .typedef nm (.res a) (nodeByteSize a) st, none)
termination_by structural fuel reg node => fuel

/-- The member loop of `Struct.do_finalize`: for each raw member tuple, call
`types[type_num].finalize(types)` and rebuild the tuple with the resolved
node bound in place of the raw offset.  On an exception the local
`new_members` list is discarded and `self.members` keeps its old value. -/
def structMembers : Nat → Registry → List Member →
    Registry × List Member × Option Err
  | _, reg, [] => (reg, [], none)
  | 0, reg, _ :: _ => (reg, [], some .fuel)
  | fuel+1, reg, (moff, ref, mname) :: rest =>
    match ref with
    | .res _ => (reg, [], some .keyError)
    | .raw t =>
      match finalizeAt fuel reg t with
      | (reg2, some e) => (reg2, [], some e)
      | (reg2, none) =>
        match lookupReg reg2 t with
        | none => (reg2, [], some .keyError)
        | some n =>
          match structMembers fuel reg2 rest with
          | (reg3, _, some e) => (reg3, [], some e)
          | (reg3, restM, none) => (reg3, (moff, .res n, mname) :: restM, none)
termination_by structural fuel reg ms => fuel

end

/-- `sum(map(lambda dm: dm[1].byte_size, self.members))`: Python's `sum`
consumes the whole iterator; it raises as soon as one member's size is
unreadable, modelled by `none`. -/
def memberSizeSum : List Member → Option Int
  | [] => some 0
  | (_, r, _) :: rest =>
    match refByteSize r, memberSizeSum rest with
    | some s, some t => some (s + t)
    | _, _ => none

mutual

/-- The `has_padding` methods.  Base `Type` (hence `Primitive`) returns
`False`.  `Struct` compares its declared size with the member size sum and
falls back to `any(map(lambda dm: dm[1].has_padding(), self.members))`;
Python's `or` and `any` short-circuit, which the shape below preserves.
`Array` and `Typedef` delegate to their item/alias. -/
def hasPadding : Node → Option Bool
  | .primitive _ _ _ => some false
  | .struct _ bs members _ =>
    match memberSizeSum members with
    | none => none
    | some total => if bs ≠ total then some true else memberAnyPad members
  | .array item _ _ _ => refHasPadding item
  | .typedef _ aliasRef _ _ => refHasPadding aliasRef

/-- `has_padding` through a member binding; on a raw (integer) reference the
method call would raise `AttributeError`, modelled as `none`. -/
def refHasPadding : Ref Node → Option Bool
  | .raw _ => none
  | .res n => hasPadding n

/-- `any(...)` over the members' `has_padding()` results, short-circuiting at
the first `True`. -/
def memberAnyPad : List Member → Option Bool
  | [] => some false
  | (_, r, _) :: rest =>
    match refHasPadding r with
    | some true => some true
    | some false => memberAnyPad rest
    | none => none

end

/-- The record object `PaddingDetails(prev_field, next_field)`; `next_field`
is `None` for a trailing-padding record. -/
structure PaddingDetails where
  prev_field : Member
  next_field : Option Member

/-- The argument tuple computed by `PaddingDetails.__repr__`: the previous
field's name, its span `prev.offset : prev.offset + prev.type.byte_size`, and
(for an inter-field record) the next field's name and start offset. -/
def reprArgs (p : PaddingDetails) : Option (String × Int × Int × Option (String × Int)) :=
  match refByteSize p.prev_field.2.1 with
  | none => none
  | some s =>
    match p.next_field with
    | none => some (p.prev_field.2.2, p.prev_field.1, p.prev_field.1 + s, none)
    | some nf => some (p.prev_field.2.2, p.prev_field.1, p.prev_field.1 + s,
        some (nf.2.2, nf.1))

/-- The inter-field loop of `Struct.get_padding_list`:
`for i in range(len(self.members) - 1)`, with
`pad_size = next_offset - cur_offset - cur_type.byte_size` and a record
emitted only when `pad_size > 0`. -/
def structInterPads : List Member → Option (List PaddingDetails)
  | [] => some []
  | [_] => some []
  | cur :: next :: rest =>
    match refByteSize cur.2.1 with
    | none => none
    | some s =>
      match structInterPads (next :: rest) with
      | none => none
      | some tail =>
        if next.1 - cur.1 - s > 0 then some (⟨cur, some next⟩ :: tail) else some tail

/-- `Struct.get_padding_list` on a struct's declared byte size and member
list: the inter-field loop, then the unconditional `self.members[-1]` access
(an `IndexError` on an empty member list, modelled as `none`) and the
trailing-gap test `self.byte_size - (last[0] + last[1].byte_size) > 0`. -/
def structPaddingList (byteSize : Int) (members : List Member) :
    Option (List PaddingDetails) :=
  match structInterPads members with
  | none => none
  | some pads =>
    match members.getLast? with
    | none => none
    | some last =>
      match refByteSize last.2.1 with
      | none => none
      | some s =>
        if byteSize - (last.1 + s) > 0 then some (pads ++ [⟨last, none⟩])
        else some pads

/-- `get_padding_list` as a method of every node: the `Type` base class
returns `[]`; `Struct` overrides it. -/
def getPaddingList : Node → Option (List PaddingDetails)
  | .struct _ bs members _ => structPaddingList bs members
  | _ => some []

/-- The number of padding bytes a record stands for: for an inter-field
record, `next.offset - (prev.offset + prev.byte_size)`; for a trailing
record, `struct.byte_size - (prev.offset + prev.byte_size)`. -/
def padAmount (structByteSize : Int) (p : PaddingDetails) : Option Int :=
  match refByteSize p.prev_field.2.1 with
  | none => none
  | some s =>
    match p.next_field with
    | some nf => some (nf.1 - (p.prev_field.1 + s))
    | none => some (structByteSize - (p.prev_field.1 + s))

/-- Total number of padding bytes covered by a padding record list. -/
def emittedGapSum (structByteSize : Int) : List PaddingDetails → Option Int
  | [] => some 0
  | p :: rest =>
    match padAmount structByteSize p, emittedGapSum structByteSize rest with
    | some a, some r => some (a + r)
    | _, _ => none

/-- End offset of the last member: `last[0] + last[1].byte_size`. -/
def endOfLast (members : List Member) : Option Int :=
  match members.getLast? with
  | none => none
  | some last =>
    match refByteSize last.2.1 with
    | none => none
    | some s => some (last.1 + s)

/-- Modelled from the spec's words (section 4.3) for comparison with the
source's inter-field loop: for each adjacent field pair `(cur, next)`, with
`gap = next.offset − (cur.offset + cur.type.byte_size)`, emit a record
referencing `cur` and `next` exactly when `gap > 0`. -/
def specInterRecords (members : List Member) : List PaddingDetails :=
  (members.zip members.tail).filterMap fun cn =>
    match refByteSize cn.1.2.1 with
    | none => none
    | some s => if 0 < cn.2.1 - (cn.1.1 + s) then some ⟨cn.1, some cn.2⟩ else none

/-- The build loop of `main`: `assert offset not in types` then
`types[offset] = common_types[tag](die)`, in record order. -/
def insertRecords : Registry → List (Int × Node) → Registry × Option Err
  | reg, [] => (reg, none)
  | reg, (off, n) :: rest =>
    match lookupReg reg off with
    | some _ => (reg, some .assertionError)
    | none => insertRecords (reg ++ [(off, n)]) rest

/-- The resolution loop of `main`: `for t in types.values(): t.finalize(types)`,
driven by the (insertion-ordered) key list. -/
def finalizeAll (fuel : Nat) : Registry → List Int → Registry × Option Err
  | reg, [] => (reg, none)
  | reg, off :: rest =>
    match finalizeAt fuel reg off with
    | (reg2, none) => finalizeAll fuel reg2 rest
    | (reg2, some e) => (reg2, some e)

/-- One row of the size table `for o, t in types.items()`: the entry's offset
and its `byte_size`. -/
def reportOf (reg : Registry) : List (Int × Option Int) :=
  reg.map fun entry => (entry.1, nodeByteSize entry.2)

/-- The per-compile-unit loop of `main`.  Crucially the `types` dictionary is
created ONCE, before this loop, and threaded through every iteration: each
unit's records are inserted into the same registry, `finalize` runs over all
entries accumulated so far, and the size table is rendered from all of them.
An exception aborts the run; the reports of the units completed so far have
already been printed. -/
def processUnits (fuel : Nat) : Registry → List (List (Int × Node)) →
    List (List (Int × Option Int)) × Option Err
  | _, [] => ([], none)
  | reg, cu :: rest =>
    match insertRecords reg cu with
    | (_, some e) => ([], some e)
    | (reg1, none) =>
      match finalizeAll fuel reg1 (reg1.map Prod.fst) with
      | (_, some e) => ([], some e)
      | (reg2, none) =>
        match processUnits fuel reg2 rest with
        | (reps, e) => (reportOf reg2 :: reps, e)

/-- `main` on a list of compile units (each a list of constructed nodes keyed
by offset): starts from the single empty `types = {}` dictionary. -/
def mainRun (fuel : Nat) (units : List (List (Int × Node))) :
    List (List (Int × Option Int)) × Option Err :=
  processUnits fuel [] units

/-- The cyclic scenario of the spec: struct `A` with a field of type `B`,
struct `B` with a field of type `A` (offsets 0 and 1 in the registry). -/
def cycleUnit : List (Int × Node) :=
  [(0, mkStruct (some "A") 4 [(0, 1, "b")]),
   (1, mkStruct (some "B") 4 [(0, 0, "a")])]

/-- The registry after `main`'s build loop over `cycleUnit`. -/
def cycleReg : Registry := (insertRecords [] cycleUnit).1

/-! ### Basic registry lemmas -/

theorem lookupReg_setAt_self (reg : Registry) (off : Int) (x : Node) :
    lookupReg (setAt reg off x) off = some x := by
  induction reg with
  | nil => simp [setAt, lookupReg]
  | cons hd tl ih =>
    obtain ⟨o, n⟩ := hd
    by_cases h : o = off
    · simp [setAt, h, lookupReg]
    · simp [setAt, h, lookupReg, Ne.symm h, ih]

theorem lookupReg_setAt_ne (reg : Registry) (off q : Int) (x : Node) (h : q ≠ off) :
    lookupReg (setAt reg off x) q = lookupReg reg q := by
  induction reg with
  | nil => simp [setAt, lookupReg, h]
  | cons hd tl ih =>
    obtain ⟨o, n⟩ := hd
    by_cases ho : o = off
    · subst ho
      simp [setAt, lookupReg, h, ih]
    · simp [setAt, ho, lookupReg, ih]

theorem state_setState (n : Node) (st : TState) : (setState n st).state = st := by
  cases n <;> rfl

/-- One-step unfolding of `finalizeAt` at positive fuel. -/
theorem finalizeAt_succ_unfold (fuel : Nat) (reg : Registry) (off : Int) :
    finalizeAt (fuel+1) reg off =
      match lookupReg reg off with
      | none => (reg, some .keyError)
      | some node =>
        if node.state = .finalized then (reg, none)
        else if node.state = .inProcess then (reg, some .cycle)
        else
          match doFinalize fuel (setAt reg off (setState node .inProcess))
              (setState node .inProcess) with
          | (reg2, node2, none) => (setAt reg2 off (setState node2 .finalized), none)
          | (reg2, node2, some e) => (setAt reg2 off node2, some e) := by
  rw [finalizeAt]

/-- `finalize` on an already-`Finalized` node returns at once, leaving the
registry untouched. -/
theorem finalized_noop (fuel : Nat) (reg : Registry) (off : Int) (node : Node)
    (h1 : lookupReg reg off = some node) (h2 : node.state = .finalized) :
    finalizeAt (fuel+1) reg off = (reg, none) := by
  rw [finalizeAt_succ_unfold, h1]
  simp [h2]

/-- `finalize` on an `InProcess` node raises the cycle error at once, leaving
the registry untouched. -/
theorem inProcess_cycle (fuel : Nat) (reg : Registry) (off : Int) (node : Node)
    (h1 : lookupReg reg off = some node) (h2 : node.state = .inProcess) :
    finalizeAt (fuel+1) reg off = (reg, some .cycle) := by
  rw [finalizeAt_succ_unfold, h1]
  simp [h2]

/-- A `finalizeAt` call that returns normally leaves a `Finalized` node at the
requested offset. -/
theorem finalizeAt_ok_state (fuel : Nat) (reg reg' : Registry) (off : Int)
    (h : finalizeAt fuel reg off = (reg', none)) :
    ∃ n, lookupReg reg' off = some n ∧ n.state = .finalized := by
  cases fuel with
  | zero => simp [finalizeAt] at h
  | succ fuel =>
    rw [finalizeAt_succ_unfold] at h
    cases hl : lookupReg reg off with
    | none => rw [hl] at h; simp at h
    | some node =>
      rw [hl] at h
      dsimp only at h
      by_cases hf : node.state = .finalized
      · rw [if_pos hf] at h
        have h1 : reg = reg' := congrArg Prod.fst h
        exact ⟨node, by rw [← h1]; exact hl, hf⟩
      · by_cases hp : node.state = .inProcess
        · rw [if_neg hf, if_pos hp] at h
          simp at h
        · rw [if_neg hf, if_neg hp] at h
          cases hdo : doFinalize fuel (setAt reg off (setState node .inProcess))
              (setState node .inProcess) with
          | mk reg2 rest =>
            obtain ⟨node2, e⟩ := rest
            rw [hdo] at h
            cases e with
            | none =>
              simp only [Prod.mk.injEq] at h
              refine ⟨setState node2 .finalized, ?_, state_setState _ _⟩
              rw [← h.1]
              exact lookupReg_setAt_self _ _ _
            | some e => simp at h

/-- `Array.do_finalize` only reads the registry; it never writes to it. -/
theorem doFinalize_array_fst (fuel : Nat) (reg : Registry) (item : Ref Node)
    (dims : List Int) (bs : Option Int) (st : TState) :
    (doFinalize fuel reg (.array item dims bs st)).1 = reg := by
  rw [doFinalize.eq_def]
  by_cases hd : dims = []
  · simp [hd]
  · cases item with
    | res x => simp [hd]
    | raw t =>
      cases hl : lookupReg reg t with
      | none => simp [hd, hl]
      | some itemNode =>
        cases hb : nodeByteSize itemNode with
        | none => simp [hd, hl, hb]
        | some s => simp [hd, hl, hb]

/-- `Typedef.do_finalize` only reads the registry; it never writes to it. -/
theorem doFinalize_typedef_fst (fuel : Nat) (reg : Registry) (nm : String)
    (aliasRef : Ref Node) (bs : Option Int) (st : TState) :
    (doFinalize fuel reg (.typedef nm aliasRef bs st)).1 = reg := by
  rw [doFinalize.eq_def]
  cases aliasRef with
  | res x => simp
  | raw t =>
    cases hl : lookupReg reg t with
    | none => simp [hl]
    | some a => simp [hl]

/-- Registry mutations performed by the resolver never touch a node that is
already `InProcess`: its entry survives unchanged in the registry component
of the result, whether the call returns normally or raises.  Joint statement
for the three mutually recursive functions, by induction on fuel. -/
theorem preserve_inProcess (fuel : Nat) :
    (∀ reg off q n, lookupReg reg q = some n → n.state = .inProcess →
      lookupReg (finalizeAt fuel reg off).1 q = some n) ∧
    (∀ reg node q n, lookupReg reg q = some n → n.state = .inProcess →
      lookupReg (doFinalize fuel reg node).1 q = some n) ∧
    (∀ reg ms q n, lookupReg reg q = some n → n.state = .inProcess →
      lookupReg (structMembers fuel reg ms).1 q = some n) := by
  induction fuel with
  | zero =>
    refine ⟨?_, ?_, ?_⟩
    · intro reg off q n hq _
      simpa [finalizeAt] using hq
    · intro reg node q n hq _
      cases node with
      | primitive nm b st => simpa [doFinalize] using hq
      | struct nm bs members st =>
        cases members with
        | nil => simpa [doFinalize, structMembers] using hq
        | cons m rest => simpa [doFinalize, structMembers] using hq
      | array item dims bs st => simpa [doFinalize_array_fst] using hq
      | typedef nm aliasRef bs st => simpa [doFinalize_typedef_fst] using hq
    · intro reg ms q n hq _
      cases ms with
      | nil => simpa [structMembers] using hq
      | cons m rest => simpa [structMembers] using hq
  | succ fuel ih =>
    obtain ⟨ihFin, ihDo, ihMem⟩ := ih
    have hMem : ∀ reg ms q n, lookupReg reg q = some n → n.state = .inProcess →
        lookupReg (structMembers (fuel+1) reg ms).1 q = some n := by
      intro reg ms q n hq hst
      cases ms with
      | nil => simpa [structMembers] using hq
      | cons m rest =>
        obtain ⟨moff, ref, mname⟩ := m
        cases ref with
        | res x => simpa [structMembers] using hq
        | raw t =>
          cases hfa : finalizeAt fuel reg t with
          | mk reg2 e =>
            have h2 : lookupReg reg2 q = some n := by
              have := ihFin reg t q n hq hst
              rwa [hfa] at this
            cases e with
            | some e => simpa [structMembers, hfa] using h2
            | none =>
              cases hl2 : lookupReg reg2 t with
              | none => simpa [structMembers, hfa, hl2] using h2
              | some nn =>
                cases hsm : structMembers fuel reg2 rest with
                | mk reg3 rest2 =>
                  have h3 : lookupReg reg3 q = some n := by
                    have := ihMem reg2 rest q n h2 hst
                    rwa [hsm] at this
                  obtain ⟨restM, e2⟩ := rest2
                  cases e2 <;> simpa [structMembers, hfa, hl2, hsm] using h3
    have hDo : ∀ reg node q n, lookupReg reg q = some n → n.state = .inProcess →
        lookupReg (doFinalize (fuel+1) reg node).1 q = some n := by
      intro reg node q n hq hst
      cases node with
      | primitive nm b st => simpa [doFinalize] using hq
      | struct nm bs members st =>
        cases hsm : structMembers fuel reg members with
        | mk reg2 rest2 =>
          have h2 : lookupReg reg2 q = some n := by
            have := ihMem reg members q n hq hst
            rwa [hsm] at this
          obtain ⟨ms2, e2⟩ := rest2
          cases e2 <;> simpa [doFinalize, hsm] using h2
      | array item dims bs st => simpa [doFinalize_array_fst] using hq
      | typedef nm aliasRef bs st => simpa [doFinalize_typedef_fst] using hq
    refine ⟨?_, hDo, hMem⟩
    intro reg off q n hq hst
    rw [finalizeAt_succ_unfold]
    cases hl : lookupReg reg off with
    | none => simpa using hq
    | some node =>
      dsimp only
      by_cases hf : node.state = .finalized
      · rw [if_pos hf]
        exact hq
      · by_cases hp : node.state = .inProcess
        · rw [if_neg hf, if_pos hp]
          exact hq
        · rw [if_neg hf, if_neg hp]
          have hqoff : q ≠ off := by
            intro he
            subst he
            rw [hq] at hl
            cases hl
            exact hp hst
          have hq1 : lookupReg (setAt reg off (setState node .inProcess)) q = some n := by
            rw [lookupReg_setAt_ne reg off q _ hqoff]
            exact hq
          cases hdo : doFinalize fuel (setAt reg off (setState node .inProcess))
              (setState node .inProcess) with
          | mk reg2 rest2 =>
            have h2 : lookupReg reg2 q = some n := by
              have := ihDo (setAt reg off (setState node .inProcess))
                (setState node .inProcess) q n hq1 hst
              rwa [hdo] at this
            obtain ⟨node2, e2⟩ := rest2
            cases e2 with
            | none =>
              dsimp only
              rw [lookupReg_setAt_ne reg2 off q _ hqoff]
              exact h2
            | some e =>
              dsimp only
              rw [lookupReg_setAt_ne reg2 off q _ hqoff]
              exact h2

/-- Unfolding of `Array.do_finalize` at arbitrary fuel (it never recurses). -/
theorem doFinalize_array (fuel : Nat) (reg : Registry) (item : Ref Node)
    (dims : List Int) (bs : Option Int) (st : TState) :
    doFinalize fuel reg (.array item dims bs st) =
      if dims = [] then (reg, .array item dims bs st, some .assertionError)
      else
        match item with
        | .res x => (reg, .array (.res x) dims bs st, some .keyError)
        | .raw t =>
          match lookupReg reg t with
          | none => (reg, .array (.raw t) dims bs st, some .keyError)
          | some itemNode =>
            match nodeByteSize itemNode with
            | none => (reg, .array (.res itemNode) dims bs st, some .typeError)
            | some s =>
              (reg, .array (.res itemNode) dims (some (dims.foldl (· * ·) s)) st, none) := by
  cases fuel <;> rfl

/-! ### The claims -/

/-- C2: contrary to the claim, `get_padding_list` on a `Finalized` struct with
zero fields does NOT return the empty list: the inter-field loop is skipped,
but the unconditional `self.members[-1]` access raises `IndexError` (modelled
by `none`), whatever the declared byte size. -/
theorem C2_empty_struct_fails (nm : Option String) (bs : Int) :
    getPaddingList (.struct nm bs [] .finalized) = none := rfl

/-- C3: the `types` dictionary is created once, OUTSIDE the compile-unit loop,
so processing an object with two one-type compile units leaves the first
unit's node (offset 0) registered while the second unit is processed, and the
second unit's size table re-lists it alongside the second unit's own type —
the claimed per-unit isolation and drop do not happen. -/
theorem C3_registry_shared_across_units :
    mainRun 5 [[(0, mkPrimitive "int" 4)], [(1, mkPrimitive "char" 1)]]
      = ([[(0, some 4)], [(0, some 4), (1, some 1)]], none) := by decide

/-- C4 counterexample: a freshly constructed Primitive node is still in the
`Initial` state, yet its `byte_size` is already defined and readable
(`DW_AT_byte_size` is consumed by `__init__`), contradicting the claim that
for every node variant `byte_size` is defined only once `Finalized`. -/
theorem C4_counterexample :
    (mkPrimitive "int" 4).state = .initial ∧
      nodeByteSize (mkPrimitive "int" 4) = some 4 :=
  ⟨rfl, rfl⟩

/-- C4 (amended): only `Array` and `Typedef` nodes have an undefined
`byte_size` before resolution; `Primitive` and `Struct` nodes carry a defined
`byte_size` from construction on, while still in the `Initial` state. -/
theorem C4_byte_size_by_variant (nmP : String) (bsP : Int) (nmS : Option String)
    (bsS : Int) (raws : List (Int × Int × String)) (itemOff : Int)
    (ubs : List Int) (nmT : String) (aliasOff : Int) :
    ((mkPrimitive nmP bsP).state = .initial ∧
      nodeByteSize (mkPrimitive nmP bsP) = some bsP) ∧
    ((mkStruct nmS bsS raws).state = .initial ∧
      nodeByteSize (mkStruct nmS bsS raws) = some bsS) ∧
    ((mkArray itemOff ubs).state = .initial ∧
      nodeByteSize (mkArray itemOff ubs) = none) ∧
    ((mkTypedef nmT aliasOff).state = .initial ∧
      nodeByteSize (mkTypedef nmT aliasOff) = none) :=
  ⟨⟨rfl, rfl⟩, ⟨rfl, rfl⟩, ⟨rfl, rfl⟩, ⟨rfl, rfl⟩⟩

/-- C5: resolution is idempotent.  After a `finalize` call on the node at
`off` returns normally, any further `finalize` call on that node is a no-op:
it returns immediately with no error and no registry mutation, so every
observation of the node (its `byte_size`, its `has_padding`) after the second
call equals the value established by the first resolution; in particular a
node shared by several aggregates (a diamond dependency) runs `do_finalize`
only on the first reaching call. -/
theorem C5_finalize_idempotent (fuel fuel' : Nat) (reg reg' : Registry) (off : Int)
    (h : finalizeAt fuel reg off = (reg', none)) :
    finalizeAt (fuel'+1) reg' off = (reg', none) := by
  obtain ⟨n, hl, hf⟩ := finalizeAt_ok_state fuel reg reg' off h
  exact finalized_noop fuel' reg' off n hl hf

/-- C5 witness: a one-primitive registry; the first resolution finalizes the
node, the second call is a no-op on the resulting registry. -/
theorem C5_idempotent_witness :
    finalizeAt 3 [(0, Node.primitive "int" 4 .finalized)] 0
      = ([(0, Node.primitive "int" 4 .finalized)], none) :=
  C5_finalize_idempotent 2 2 [(0, mkPrimitive "int" 4)]
    [(0, Node.primitive "int" 4 .finalized)] 0 (by rfl)

/-- C6: invoking `finalize` on a node whose state is `InProcess` raises the
cycle error with the registry untouched; and on the concrete two-struct cycle
(struct `A` has a field of type `B`, `B` a field of type `A`) the whole run
aborts with the cycle error, producing no report output. -/
theorem C6_cycle_error :
    (∀ fuel reg off node, lookupReg reg off = some node →
      node.state = .inProcess →
      finalizeAt (fuel+1) reg off = (reg, some .cycle)) ∧
    mainRun 10 [cycleUnit] = ([], some .cycle) := by
  refine ⟨?_, by rfl⟩
  intro fuel reg off node h1 h2
  exact inProcess_cycle fuel reg off node h1 h2

/-- C6 witness: the general clause instantiated at a concrete `InProcess`
node. -/
theorem C6_cycle_witness :
    finalizeAt 1 [(0, Node.primitive "int" 4 .inProcess)] 0
      = ([(0, Node.primitive "int" 4 .inProcess)], some .cycle) :=
  C6_cycle_error.1 0 [(0, Node.primitive "int" 4 .inProcess)] 0
    (Node.primitive "int" 4 .inProcess) rfl rfl

/-- C10: no rollback on a cycle error.  (i) Generally: every node that is
`InProcess` before a raising `finalize` call keeps exactly its entry in the
registry the exception leaves behind, and a later `finalize` call on any
`InProcess` node raises the cycle error again, mutating nothing — resolution
is never retried.  (ii) Concretely, on the two-struct cycle: after the failed
resolution both structs are still `InProcess`, and re-running `finalize` on
either of them reproduces the cycle error with the registry unchanged. -/
theorem C10_no_rollback :
    (∀ fuel reg off reg' e, finalizeAt fuel reg off = (reg', some e) →
      ∀ q n, lookupReg reg q = some n → n.state = .inProcess →
        lookupReg reg' q = some n) ∧
    (∀ fuel reg off node, lookupReg reg off = some node →
      node.state = .inProcess →
      finalizeAt (fuel+1) reg off = (reg, some .cycle)) ∧
    ((finalizeAt 10 cycleReg 0).1.map fun p => (p.1, p.2.state))
        = [(0, .inProcess), (1, .inProcess)] ∧
    finalizeAt 10 (finalizeAt 10 cycleReg 0).1 0
        = ((finalizeAt 10 cycleReg 0).1, some .cycle) ∧
    finalizeAt 10 (finalizeAt 10 cycleReg 0).1 1
        = ((finalizeAt 10 cycleReg 0).1, some .cycle) := by
  refine ⟨?_, ?_, by decide, by rfl, by rfl⟩
  · intro fuel reg off reg' e h q n hq hst
    have := (preserve_inProcess fuel).1 reg off q n hq hst
    rwa [h] at this
  · intro fuel reg off node h1 h2
    exact inProcess_cycle fuel reg off node h1 h2

/-- C10 witness: the general preservation clause applied to the concrete
failing call on the cyclic registry — struct `B`, `InProcess` when the error
was raised, is still `InProcess` afterwards. -/
theorem C10_no_rollback_witness :
    lookupReg (finalizeAt 10 (finalizeAt 10 cycleReg 0).1 0).1 1
      = some (Node.struct (some "B") 4 [(0, .raw 0, "a")] .inProcess) :=
  C10_no_rollback.1 10 (finalizeAt 10 cycleReg 0).1 0
    (finalizeAt 10 (finalizeAt 10 cycleReg 0).1 0).1 .cycle (by rfl)
    1 (Node.struct (some "B") 4 [(0, .raw 0, "a")] .inProcess) (by rfl) rfl

/-- C8: resolving an `Initial` Array node whose item type is registered with a
readable byte size binds the item and sets
`byte_size = item.byte_size × Π dimensions`; the dimension extents recorded
at construction are `upper_bound + 1` each; and an array with zero recorded
dimensions fails the assertion at resolution. -/
theorem C8_array_resolution (fuel : Nat) (reg : Registry) (off t : Int)
    (dims : List Int) (bs0 : Option Int) (itemNode : Node) (s : Int)
    (hoff : lookupReg reg off = some (.array (.raw t) dims bs0 .initial))
    (hne : t ≠ off) (hit : lookupReg reg t = some itemNode)
    (hs : nodeByteSize itemNode = some s) :
    (∀ itemOff ubs, mkArray itemOff ubs
        = .array (.raw itemOff) (ubs.map (· + 1)) none .initial) ∧
    (dims ≠ [] → ∃ reg', finalizeAt (fuel+1) reg off = (reg', none) ∧
      lookupReg reg' off
        = some (.array (.res itemNode) dims (some (dims.foldl (· * ·) s)) .finalized)) ∧
    (dims = [] → (finalizeAt (fuel+1) reg off).2 = some .assertionError) := by
  refine ⟨fun itemOff ubs => rfl, ?_, ?_⟩
  · intro hd
    rw [finalizeAt_succ_unfold, hoff]
    dsimp only
    rw [if_neg (by simp [Node.state]), if_neg (by simp [Node.state])]
    dsimp only [setState]
    rw [doFinalize_array, if_neg hd]
    dsimp only
    rw [lookupReg_setAt_ne reg off t _ hne, hit]
    dsimp only
    rw [hs]
    dsimp only
    exact ⟨_, rfl, lookupReg_setAt_self _ _ _⟩
  · intro hd
    subst hd
    rw [finalizeAt_succ_unfold, hoff]
    dsimp only
    rw [if_neg (by simp [Node.state]), if_neg (by simp [Node.state])]
    dsimp only [setState]
    rw [doFinalize_array, if_pos rfl]

/-- C8 witness: an `int[3]` array (upper bound 2) over a 4-byte primitive
resolves to byte size 12. -/
theorem C8_array_witness :
    (∀ itemOff ubs, mkArray itemOff ubs
        = .array (.raw itemOff) (ubs.map (· + 1)) none .initial) ∧
    (∃ reg', finalizeAt 10 [(0, mkPrimitive "int" 4), (1, mkArray 0 [2])] 1
        = (reg', none) ∧
      lookupReg reg' 1
        = some (.array (.res (mkPrimitive "int" 4)) [3] (some 12) .finalized)) := by
  obtain ⟨h1, h2, h3⟩ := C8_array_resolution 9
    [(0, mkPrimitive "int" 4), (1, mkArray 0 [2])] 1 0 [3] none
    (mkPrimitive "int" 4) 4 (by rfl) (by decide) (by rfl) (by rfl)
  exact ⟨h1, h2 (by decide)⟩

/-- `any(...)` over members with readable padding statuses returns `True`
exactly when some member's type has padding. -/
theorem memberAnyPad_iff (members : List Member)
    (hdef : ∀ m ∈ members, (refHasPadding m.2.1).isSome) :
    (memberAnyPad members = some true ↔
      ∃ m ∈ members, refHasPadding m.2.1 = some true) := by
  induction members with
  | nil => simp [memberAnyPad]
  | cons m rest ih =>
    obtain ⟨moff, r, mname⟩ := m
    have hm : (refHasPadding r).isSome := by
      have := hdef (moff, r, mname) (List.mem_cons_self _ _)
      simpa using this
    cases hr : refHasPadding r with
    | none => rw [hr] at hm; simp at hm
    | some b =>
      cases b with
      | true =>
        have hL : memberAnyPad ((moff, r, mname) :: rest) = some true := by
          simp [memberAnyPad, hr]
        rw [hL]
        exact iff_of_true rfl ⟨(moff, r, mname), List.mem_cons_self _ _, hr⟩
      | false =>
        have hL : memberAnyPad ((moff, r, mname) :: rest) = memberAnyPad rest := by
          simp [memberAnyPad, hr]
        rw [hL, ih (fun x hx => hdef x (List.mem_cons_of_mem _ hx))]
        constructor
        · rintro ⟨x, hx, hxt⟩
          exact ⟨x, List.mem_cons_of_mem _ hx, hxt⟩
        · rintro ⟨x, hx, hxt⟩
          rcases List.mem_cons.mp hx with h | h
          · subst h
            simp only at hxt
            rw [hr] at hxt
            simp at hxt
          · exact ⟨x, h, hxt⟩

/-- C7: for a Struct node whose member size sum is `total` and whose members
all have readable padding statuses, `has_padding` is `True` exactly when the
declared byte size differs from `total` or some member's type itself has
padding — so nested padding propagates to the container even when the
container's own layout is byte-tight (`bs = total`). -/
theorem C7_struct_has_padding (nm : Option String) (bs : Int) (members : List Member)
    (st : TState) (total : Int)
    (hsum : memberSizeSum members = some total)
    (hdef : ∀ m ∈ members, (refHasPadding m.2.1).isSome) :
    (hasPadding (.struct nm bs members st) = some true ↔
      bs ≠ total ∨ ∃ m ∈ members, refHasPadding m.2.1 = some true) := by
  rw [hasPadding, hsum]
  dsimp only
  by_cases hbs : bs = total
  · rw [if_neg (not_not_intro hbs)]
    rw [memberAnyPad_iff members hdef]
    constructor
    · exact fun h => Or.inr h
    · rintro (h | h)
      · exact absurd hbs h
      · exact h
  · rw [if_pos hbs]
    exact iff_of_true rfl (Or.inl hbs)

/-- C7 witness: the spec's scenario `S` — `char a` at 0 (size 1), `int32 b`
at 4 (size 4), declared size 8; the member sizes sum to 5. -/
theorem C7_padding_witness :
    (hasPadding (.struct (some "S") 8
        [(0, .res (mkPrimitive "char" 1), "a"), (4, .res (mkPrimitive "int32" 4), "b")]
        .finalized) = some true ↔
      (8:Int) ≠ 5 ∨ ∃ m ∈ ([(0, .res (mkPrimitive "char" 1), "a"),
          (4, .res (mkPrimitive "int32" 4), "b")] : List Member),
        refHasPadding m.2.1 = some true) :=
  C7_struct_has_padding (some "S") 8 _ .finalized 5 (by decide)
    (by simp [refHasPadding, hasPadding, mkPrimitive])

/-- C9: on a member list whose types all have readable byte sizes, the
inter-field loop produces exactly the records prescribed by the spec's
adjacent-pair rule — one record per adjacent pair `(cur, next)` with
`next.offset - (cur.offset + cur.byte_size) > 0` (zero or negative gaps emit
nothing), each record carrying the full `cur` member tuple (name, offset,
resolved type — from which `__repr__` renders the span
`cur.offset : cur.offset + cur.byte_size`) and the `next` member tuple (name
and start offset). -/
theorem C9_inter_records (members : List Member)
    (hdef : ∀ m ∈ members, (refByteSize m.2.1).isSome) :
    structInterPads members = some (specInterRecords members) := by
  induction members with
  | nil => rfl
  | cons m rest ih =>
    cases rest with
    | nil => rfl
    | cons m2 rest2 =>
      obtain ⟨moff, r, mname⟩ := m
      have hm : (refByteSize r).isSome := by
        have := hdef (moff, r, mname) (List.mem_cons_self _ _)
        simpa using this
      cases hs : refByteSize r with
      | none => rw [hs] at hm; simp at hm
      | some s =>
        have ih2 := ih (fun x hx => hdef x (List.mem_cons_of_mem _ hx))
        rw [structInterPads]
        dsimp only
        rw [hs, ih2]
        simp only [specInterRecords, List.tail_cons, List.zip_cons_cons,
          List.filterMap_cons]
        rw [hs]
        by_cases hgap : 0 < m2.1 - (moff + s)
        · rw [if_pos (show m2.1 - moff - s > 0 by omega)]
          dsimp only
          rw [if_pos hgap]
        · rw [if_neg (show ¬ m2.1 - moff - s > 0 by omega)]
          dsimp only
          rw [if_neg hgap]

/-- C9 witness: scenario `S` members — one positive inter-field gap. -/
theorem C9_inter_witness :
    structInterPads [(0, .res (mkPrimitive "char" 1), "a"),
        (4, .res (mkPrimitive "int32" 4), "b")]
      = some (specInterRecords [(0, .res (mkPrimitive "char" 1), "a"),
        (4, .res (mkPrimitive "int32" 4), "b")]) :=
  C9_inter_records _ (by decide)

/-- Concatenating one more record adds its amount to the emitted gap total. -/
theorem emittedGapSum_append (bs : Int) (xs : List PaddingDetails) (y : PaddingDetails)
    (s a : Int) (hxs : emittedGapSum bs xs = some s) (hy : padAmount bs y = some a) :
    emittedGapSum bs (xs ++ [y]) = some (s + a) := by
  induction xs generalizing s with
  | nil =>
    have hs0 : s = 0 := by
      rw [emittedGapSum] at hxs
      simpa using hxs.symm
    subst hs0
    rw [List.nil_append, emittedGapSum, hy, emittedGapSum]
    simp
  | cons x xs ih =>
    rw [emittedGapSum] at hxs
    cases hx : padAmount bs x with
    | none => rw [hx] at hxs; simp at hxs
    | some ax =>
      rw [hx] at hxs
      cases hxe : emittedGapSum bs xs with
      | none => rw [hxe] at hxs; simp at hxs
      | some sx =>
        rw [hxe] at hxs
        simp only [Option.some.injEq] at hxs
        rw [List.cons_append, emittedGapSum, hx, ih sx hxe]
        simp only [Option.some.injEq]
        omega

/-- Telescoping sum over the inter-field loop: on a nonempty member list with
readable sizes and nonnegative adjacent gaps, the loop succeeds and the end
of the last member equals the first offset plus the member size sum plus the
emitted inter-field gap total. -/
theorem interPads_sum (bs : Int) (rest : List Member) :
    ∀ (m : Member) (total e : Int),
      memberSizeSum (m :: rest) = some total →
      (∀ cn ∈ (m :: rest).zip rest, ∀ s, refByteSize cn.1.2.1 = some s →
        0 ≤ cn.2.1 - cn.1.1 - s) →
      endOfLast (m :: rest) = some e →
      ∃ pads g, structInterPads (m :: rest) = some pads ∧
        emittedGapSum bs pads = some g ∧ 0 ≤ g ∧ e = m.1 + total + g := by
  induction rest with
  | nil =>
    intro m total e h1 h2 h3
    obtain ⟨moff, r, mname⟩ := m
    cases hs : refByteSize r with
    | none => rw [memberSizeSum, hs] at h1; simp at h1
    | some s =>
      have htot : total = s + 0 := by
        rw [memberSizeSum, hs, memberSizeSum] at h1
        simpa using h1.symm
      rw [endOfLast] at h3
      rw [show ([((moff : Int), r, mname)]).getLast? = some (moff, r, mname) from rfl] at h3
      dsimp only at h3
      rw [hs] at h3
      have he : moff + s = e := by simpa using h3
      refine ⟨[], 0, rfl, rfl, le_refl 0, ?_⟩
      dsimp only
      omega
  | cons m2 rest2 ih =>
    intro m total e h1 h2 h3
    obtain ⟨moff, r, mname⟩ := m
    cases hs : refByteSize r with
    | none => rw [memberSizeSum, hs] at h1; simp at h1
    | some s =>
      cases ht : memberSizeSum (m2 :: rest2) with
      | none => rw [memberSizeSum, hs, ht] at h1; simp at h1
      | some t2 =>
        have htot : total = s + t2 := by
          rw [memberSizeSum, hs, ht] at h1
          simpa using h1.symm
        have hmemb : (((moff : Int), r, mname), m2) ∈
            (((moff : Int), r, mname) :: m2 :: rest2).zip (m2 :: rest2) := by
          rw [List.zip_cons_cons]
          exact List.mem_cons_self _ _
        have hg0 : 0 ≤ m2.1 - moff - s := h2 _ hmemb s hs
        have h3' : endOfLast (m2 :: rest2) = some e := by
          rw [endOfLast] at h3
          rw [List.getLast?_cons_cons] at h3
          rw [endOfLast]
          exact h3
        have h2' : ∀ cn ∈ (m2 :: rest2).zip rest2, ∀ s2, refByteSize cn.1.2.1 = some s2 →
            0 ≤ cn.2.1 - cn.1.1 - s2 := by
          intro cn hcn s2 hs2
          refine h2 cn ?_ s2 hs2
          rw [List.zip_cons_cons]
          exact List.mem_cons_of_mem _ hcn
        obtain ⟨pads2, g2, hip2, hsum2, hg2, he2⟩ := ih m2 t2 e ht h2' h3'
        by_cases hgap : m2.1 - moff - s > 0
        · refine ⟨⟨(moff, r, mname), some m2⟩ :: pads2, (m2.1 - (moff + s)) + g2,
            ?_, ?_, by omega, by dsimp only; omega⟩
          · rw [structInterPads]
            dsimp only
            rw [hs, hip2]
            dsimp only
            rw [if_pos hgap]
          · rw [emittedGapSum]
            rw [show padAmount bs ⟨((moff : Int), r, mname), some m2⟩
                = some (m2.1 - (moff + s)) from by simp [padAmount, hs]]
            rw [hsum2]
        · refine ⟨pads2, g2, ?_, hsum2, hg2, by dsimp only; omega⟩
          rw [structInterPads]
          dsimp only
          rw [hs, hip2]
          dsimp only
          rw [if_neg hgap]

/-- C1 (amended): the size decomposition
`byte_size = Σ member sizes + Σ emitted inter-field gaps + emitted trailing
gap` holds for every resolved Struct whose member list is nonempty, whose
first member sits at offset 0, whose member sizes are all readable, and whose
adjacent gaps and trailing gap are all nonnegative — the hypotheses the
counterexamples force, since `get_padding_list` never looks at the space
before the first member and drops, rather than subtracts, negative gaps.
This holds regardless of the struct's `has_padding` value. -/
theorem C1_size_decomposition (bs : Int) (members : List Member) (m0 : Member)
    (total e : Int)
    (hhead : members.head? = some m0)
    (h0 : m0.1 = 0)
    (hsum : memberSizeSum members = some total)
    (hgaps : ∀ cn ∈ members.zip members.tail, ∀ s, refByteSize cn.1.2.1 = some s →
      0 ≤ cn.2.1 - cn.1.1 - s)
    (hend : endOfLast members = some e)
    (htrail : e ≤ bs) :
    ∃ pads g, structPaddingList bs members = some pads ∧
      emittedGapSum bs pads = some g ∧ bs = total + g := by
  cases members with
  | nil => simp at hhead
  | cons m rest =>
    rw [List.head?_cons, Option.some.injEq] at hhead
    subst hhead
    simp only [List.tail_cons] at hgaps
    obtain ⟨pads, g, hip, hsumg, hg0, he⟩ := interPads_sum bs rest m total e hsum hgaps hend
    rw [endOfLast] at hend
    cases hl : (m :: rest).getLast? with
    | none => rw [hl] at hend; simp at hend
    | some last =>
      rw [hl] at hend
      dsimp only at hend
      cases hsl : refByteSize last.2.1 with
      | none => rw [hsl] at hend; simp at hend
      | some sl =>
        rw [hsl] at hend
        have he2 : last.1 + sl = e := by simpa using hend
        rw [structPaddingList, hip]
        dsimp only
        rw [hl]
        dsimp only
        rw [hsl]
        dsimp only
        by_cases htp : bs - (last.1 + sl) > 0
        · rw [if_pos htp]
          refine ⟨pads ++ [⟨last, none⟩], g + (bs - (last.1 + sl)), rfl, ?_, by omega⟩
          exact emittedGapSum_append bs pads ⟨last, none⟩ g (bs - (last.1 + sl)) hsumg
            (by simp [padAmount, hsl])
        · rw [if_neg htp]
          exact ⟨pads, g, rfl, hsumg, by omega⟩

/-- C1 counterexample: a Finalized struct with declared size 8 and a single
4-byte member at offset 4.  `get_padding_list` emits no record at all (the
space before the first member is never examined and the trailing gap is 0),
the member sizes sum to 4, and `8 ≠ 4 + 0`: the decomposition claimed for
every resolved Struct fails. -/
theorem C1_counterexample :
    structPaddingList 8 [(4, .res (mkPrimitive "int32" 4), "x")] = some [] ∧
    memberSizeSum [(4, .res (mkPrimitive "int32" 4), "x")] = some 4 ∧
    emittedGapSum 8 [] = some 0 ∧ (8 : Int) ≠ 4 + 0 := by
  refine ⟨rfl, by decide, by decide, by decide⟩

/-- C1 witness: struct with members `a` (size 4 at 0) and `b` (size 4 at 8),
declared size 16: one inter-field gap of 4, one trailing gap of 4, and
`16 = 8 + (4 + 4)`. -/
theorem C1_decomposition_witness :
    ∃ pads g, structPaddingList 16
        [(0, .res (mkPrimitive "int32" 4), "a"), (8, .res (mkPrimitive "int32" 4), "b")]
        = some pads ∧
      emittedGapSum 16 pads = some g ∧ (16 : Int) = 8 + g :=
  C1_size_decomposition 16
    [(0, .res (mkPrimitive "int32" 4), "a"), (8, .res (mkPrimitive "int32" 4), "b")]
    (0, .res (mkPrimitive "int32" 4), "a") 8 12 rfl (by decide) (by decide)
    (by
      intro cn hcn s hs
      have hcn2 : cn = ((0, Ref.res (mkPrimitive "int32" 4), "a"),
          (8, Ref.res (mkPrimitive "int32" 4), "b")) := by
        simpa using hcn
      subst hcn2
      have hs2 : s = 4 := by
        simpa [refByteSize, mkPrimitive, nodeByteSize] using hs.symm
      subst hs2
      decide)
    (by decide) (by decide)

end PadthFinder
